import Mathlib

/-!
Verification of the pidstat-processing core of `utils/resource-monitor/graph_pidstat.py`.

The embedding models the pure data transformations of the script:

* raw sample files are lists of lines, each line a list of characters;
* `make_pidstat_tables` parses a raw file into a table (`List RoleRow`),
  filtering `DB`-role lines by the identity token, extracting the fixed
  token window (positions 8, 14, 15, 16 of the whitespace split),
  converting the memory percentage via the machine memory, summing the
  database groups per second, dropping duplicate seconds for the `DB`
  role, and clamping negative cells to zero;
* numeric cells are `Option ℚ` — `none` plays the part of a `NaN` cell
  produced when a short row is padded by the dataframe constructor;
* the three-way inner join on the seconds column is `merge3`, and the
  run summary (`int` of the maximal second, per-column means rounded to
  one decimal) is `makeSummary`.

Errors raised by the Python code are values of `PErr`: a missing file
(`FileNotFoundError`), a list index out of range (`IndexError`), and
value errors from the dataframe constructor, the float casts, or the
`int()` of a `NaN` maximum (all `ValueError`).
-/

namespace GraphPidstat

/-- Whitespace separators recognised by the `str.split()` call applied to a
raw line. -/
def isWs (c : Char) : Bool := c == ' ' || c == '\t' || c == '\n' || c == '\r'

/-- Accumulating tokeniser behind `pyTokens`; `cur` holds the characters of
the token currently being read, in reverse order. -/
def pyTokensAux : List Char → List Char → List (List Char)
  | [], cur => if cur.isEmpty then [] else [cur.reverse]
  | c :: cs, cur =>
    if isWs c then
      if cur.isEmpty then pyTokensAux cs [] else cur.reverse :: pyTokensAux cs []
    else pyTokensAux cs (c :: cur)

/-- Model of Python's `line.split()`: split on runs of whitespace, dropping
empty tokens. -/
def pyTokens (l : List Char) : List (List Char) := pyTokensAux l []

/-- Numeric value of a list of decimal digit characters. -/
def digitsVal (cs : List Char) : ℕ := cs.foldl (fun a c => 10 * a + (c.toNat - 48)) 0

/-- Unsigned part of the float parser: digits with an optional decimal
point, as accepted by Python's `float()` on the tokens this program meets.
(The full `float()` grammar also has exponents and infinities, which never
occur in pidstat output; on any input this parser accepts, it agrees with
`float()`.) -/
def pyFloatCore (cs : List Char) : Option ℚ :=
  match cs.span (fun c => c != '.') with
  | (ip, []) =>
    if !ip.isEmpty && ip.all Char.isDigit then some (digitsVal ip : ℚ) else none
  | (ip, _ :: frac) =>
    if (!ip.isEmpty || !frac.isEmpty) && ip.all Char.isDigit && frac.all Char.isDigit
    then some ((digitsVal ip : ℚ) + (digitsVal frac : ℚ) / (10 : ℚ) ^ frac.length)
    else none

/-- Model of Python's `float(token)`: optional sign followed by the core
numeral; `none` models a raised `ValueError`. -/
def pyFloat : List Char → Option ℚ
  | '-' :: rest => (pyFloatCore rest).map (fun x => -x)
  | '+' :: rest => pyFloatCore rest
  | cs => pyFloatCore cs

/-- Role tag passed as the `type` argument of `make_pidstat_tables`. -/
inductive Role where
  | pipeline
  | server
  | db
deriving DecidableEq

/-- Errors raised by the modelled code paths: `FileNotFoundError` on a
missing file, `IndexError` from `usage[-3]` on a short `DB` line, and
`ValueError` from the dataframe constructor, a failing `float()` cast or
`int()` of `NaN`. -/
inductive PErr where
  | notFound
  | indexError
  | valueError
deriving DecidableEq

/-- One entry of the `total_usage` list: the elapsed second that was
inserted at the front, and the tokens remaining after the three `del`
slices. -/
structure RawRow where
  sec : ℕ
  toks : List (List Char)
deriving DecidableEq

/-- Tokens surviving `del usage[:8]`, `del usage[9:]`, `del usage[1:6]`:
positions 8, 14, 15 and 16 of the original split, those that exist. -/
def extractToks (full : List (List Char)) : List (List Char) :=
  [full.get? 8, full.get? 14, full.get? 15, full.get? 16].filterMap id

/-- Identity token expected of a database-role line (`"hapi"`). -/
def hapiTok : List Char := "hapi".toList

/-- The line loop of `make_pidstat_tables`: a line starting with a digit is
split; for the `DB` role it is skipped unless token `usage[-3]` equals
`"hapi"` (raising `IndexError` when fewer than three tokens exist); a line
starting with `#` increments the elapsed-seconds counter; anything else is
ignored. -/
def parseLines (role : Role) : List (List Char) → ℕ → Except PErr (List RawRow)
  | [], _ => .ok []
  | l :: ls, sec =>
    if (l.headD '\n').isDigit then
      let full := pyTokens l
      if role == .db && decide (full.length < 3) then .error .indexError
      else if role == .db && full.getD (full.length - 3) [] != hapiTok then
        parseLines role ls sec
      else
        match parseLines role ls sec with
        | .error e => .error e
        | .ok rest => .ok (⟨sec, extractToks full⟩ :: rest)
    else if (l.headD '\n') == '#' then parseLines role ls (sec + 1)
    else parseLines role ls sec

/-- Closed form of the line loop for the single-process roles (`Pipeline`
and `Server`), where no line is ever skipped by the identity filter and no
`IndexError` can occur. -/
def parsedSimple : List (List Char) → ℕ → List RawRow
  | [], _ => []
  | l :: ls, sec =>
    if (l.headD '\n').isDigit then ⟨sec, extractToks (pyTokens l)⟩ :: parsedSimple ls sec
    else if (l.headD '\n') == '#' then parsedSimple ls (sec + 1)
    else parsedSimple ls sec

/-- One row of the per-role table. The metric cells are `Option ℚ`: `none`
models the `NaN` a short row is padded with by the dataframe constructor. -/
structure RoleRow where
  sec : ℚ
  cpu : Option ℚ
  mem : Option ℚ
  rd : Option ℚ
  wr : Option ℚ
deriving DecidableEq

/-- Length of a `total_usage` entry as a dataframe row (the second plus the
surviving tokens). -/
def rowLen (r : RawRow) : ℕ := 1 + r.toks.length

/-- Maximal row length, which the dataframe constructor compares with the
five column names. -/
def maxRowLen (rows : List RawRow) : ℕ := rows.foldl (fun m r => max m (rowLen r)) 0

/-- Cell `i` of a row: absent positions are the `NaN` padding, present
tokens must pass `float()`. -/
def cellOf (toks : List (List Char)) (i : ℕ) : Except PErr (Option ℚ) :=
  match toks.get? i with
  | none => .ok none
  | some t =>
    match pyFloat t with
    | none => .error .valueError
    | some q => .ok (some q)

/-- Casting of one row: the four metric tokens through `float()`, and the
memory percentage converted to GB via the machine memory. -/
def buildRow (memGB : ℚ) (r : RawRow) : Except PErr RoleRow :=
  match cellOf r.toks 0, cellOf r.toks 1, cellOf r.toks 2, cellOf r.toks 3 with
  | .ok c, .ok m, .ok rd, .ok wr =>
    .ok { sec := (r.sec : ℚ), cpu := c, mem := m.map (fun v => v / 100 * memGB),
          rd := rd, wr := wr }
  | .error e, _, _, _ => .error e
  | _, .error e, _, _ => .error e
  | _, _, .error e, _ => .error e
  | _, _, _, .error e => .error e

/-- Casting of all rows in order, first failure wins. -/
def buildRows (memGB : ℚ) : List RawRow → Except PErr (List RoleRow)
  | [] => .ok []
  | r :: rs =>
    match buildRow memGB r, buildRows memGB rs with
    | .ok row, .ok rest => .ok (row :: rest)
    | .error e, _ => .error e
    | _, .error e => .error e

/-- Dataframe construction plus the casts: fails with `ValueError` when the
rows are non-empty but none reaches the five announced columns; otherwise
shorter rows are padded with `NaN` and every cell is cast. -/
def buildTable (memGB : ℚ) (rows : List RawRow) : Except PErr (List RoleRow) :=
  if !rows.isEmpty && maxRowLen rows != 5 then .error .valueError
  else buildRows memGB rows

/-- Sum of the non-`NaN` values of one metric over the rows of one second —
the skip-`NaN` sum used by the grouped `transform(sum)`. -/
def sumBySec (t : List RoleRow) (s : ℚ) (f : RoleRow → Option ℚ) : ℚ :=
  ((t.filter fun x => decide (x.sec = s)).filterMap f).sum

/-- Image of one row under the four grouped `transform(sum)` calls: every
metric cell becomes the per-second group sum. -/
def transformRow (t : List RoleRow) (r : RoleRow) : RoleRow where
  sec := r.sec
  cpu := some (sumBySec t r.sec (·.cpu))
  mem := some (sumBySec t r.sec (·.mem))
  rd := some (sumBySec t r.sec (·.rd))
  wr := some (sumBySec t r.sec (·.wr))

/-- The four grouped `transform(sum)` calls applied to the whole table. -/
def transformAll (t : List RoleRow) : List RoleRow := t.map (transformRow t)

/-- Worker of `dedupBySec`: `seen` is the list of seconds already kept. -/
def dedupBySecAux : List RoleRow → List ℚ → List RoleRow
  | [], _ => []
  | r :: rs, seen =>
    if seen.contains r.sec then dedupBySecAux rs seen
    else r :: dedupBySecAux rs (r.sec :: seen)

/-- Model of `drop_duplicates(subset=["Seconds Elapsed"])`: keep the first
row of each second, preserving order. -/
def dedupBySec (t : List RoleRow) : List RoleRow := dedupBySecAux t []

/-- Clamping of one value, from `df[df < 0] = 0`. -/
def clampVal (q : ℚ) : ℚ := if q < 0 then 0 else q

/-- Clamping of one cell: the comparison `NaN < 0` is false, so `NaN` cells
are left alone. -/
def clampCell : Option ℚ → Option ℚ
  | none => none
  | some q => some (clampVal q)

/-- Clamping of one row — the mask `df < 0` covers every column, the
seconds column included. -/
def clampRow (r : RoleRow) : RoleRow where
  sec := clampVal r.sec
  cpu := clampCell r.cpu
  mem := clampCell r.mem
  rd := clampCell r.rd
  wr := clampCell r.wr

/-- Clamping of the whole table, `total_usage_df[total_usage_df < 0] = 0`. -/
def clampTable (t : List RoleRow) : List RoleRow := t.map clampRow

/-- Grouped summation and duplicate removal applied to the `DB` table
(lines 194–207 of the source). -/
def dbAggregate (t : List RoleRow) : List RoleRow := dedupBySec (transformAll t)

/-- Model of `make_pidstat_tables(file_name, type)`. The file is `none`
when it does not exist; the machine memory returned by
`get_machine_mem()` is the parameter `memGB`. -/
def make_pidstat_tables (memGB : ℚ) (file : Option (List (List Char))) (role : Role) :
    Except PErr (List RoleRow) :=
  match file with
  | none => .error .notFound
  | some lines =>
    match parseLines role lines 0 with
    | .error e => .error e
    | .ok raw =>
      match buildTable memGB raw with
      | .error e => .error e
      | .ok t => .ok (clampTable (if role == .db then dbAggregate t else t))

/-- One row of the merged table `all_stats_df`: the join key and the four
metric cells of each of the three roles. -/
structure MergedRow where
  sec : ℚ
  pCpu : Option ℚ
  pMem : Option ℚ
  pRd : Option ℚ
  pWr : Option ℚ
  sCpu : Option ℚ
  sMem : Option ℚ
  sRd : Option ℚ
  sWr : Option ℚ
  dCpu : Option ℚ
  dMem : Option ℚ
  dRd : Option ℚ
  dWr : Option ℚ
deriving DecidableEq

/-- The two `pandas.merge(..., on="Seconds Elapsed")` calls: a three-way
inner join, left-major order, matching rows paired in input order. -/
def merge3 (ps ss ds : List RoleRow) : List MergedRow :=
  ps.flatMap fun p =>
    (ss.filter fun s => decide (s.sec = p.sec)).flatMap fun s =>
      (ds.filter fun d => decide (d.sec = p.sec)).map fun d =>
        ⟨p.sec, p.cpu, p.mem, p.rd, p.wr, s.cpu, s.mem, s.rd, s.wr,
         d.cpu, d.mem, d.rd, d.wr⟩

/-- Rows the join contributes for one pipeline row `p`: every matching
pair of a server row and a database row with the same second. `merge3`
is exactly `ps.flatMap (mergeBlock ss ds)`. -/
def mergeBlock (ss ds : List RoleRow) (p : RoleRow) : List MergedRow :=
  (ss.filter fun s => decide (s.sec = p.sec)).flatMap fun s =>
    (ds.filter fun d => decide (d.sec = p.sec)).map fun d =>
      ⟨p.sec, p.cpu, p.mem, p.rd, p.wr, s.cpu, s.mem, s.rd, s.wr,
       d.cpu, d.mem, d.rd, d.wr⟩

/-- The merged table produced by `graph_pidstat` from the three raw files. -/
def mergedTable (memGB : ℚ) (fp fs fd : Option (List (List Char))) :
    Except PErr (List MergedRow) :=
  match make_pidstat_tables memGB fp .pipeline, make_pidstat_tables memGB fs .server,
        make_pidstat_tables memGB fd .db with
  | .ok p, .ok s, .ok d => .ok (merge3 p s d)
  | .error e, _, _ => .error e
  | _, .error e, _ => .error e
  | _, _, .error e => .error e

/-- Maximum of the seconds column, `all_stats_df["Seconds Elapsed"].max()`:
`none` is the `NaN` returned on an empty table. -/
def secMax : List MergedRow → Option ℚ
  | [] => none
  | r :: rs => some (rs.foldl (fun a x => max a x.sec) r.sec)

/-- Model of Python's `int()` on a float: truncation toward zero. -/
def pyInt (q : ℚ) : ℤ := if q < 0 then -⌊-q⌋ else ⌊q⌋

/-- Model of `Series.mean()`: the mean of the non-`NaN` cells, `NaN` when
none exist. -/
def pandasMean (l : List (Option ℚ)) : Option ℚ :=
  if (l.filterMap id).length = 0 then none
  else some ((l.filterMap id).sum / ((l.filterMap id).length : ℚ))

/-- Arithmetic mean of a list of values (the specification's wording for
the per-column summaries). -/
def colMean (l : List ℚ) : ℚ := l.sum / (l.length : ℚ)

/-- Round-half-to-even to an integer, the rounding `round()` uses. -/
def roundHalfEven (q : ℚ) : ℤ :=
  let f := ⌊q⌋
  let r := q - (f : ℚ)
  if r < 1 / 2 then f
  else if 1 / 2 < r then f + 1
  else if f % 2 = 0 then f else f + 1

/-- Model of Python's `round(x, 1)`. -/
def pyRound1 (q : ℚ) : ℚ := ((roundHalfEven (10 * q) : ℚ)) / 10

/-- The run summary printed on the chart: total time and the twelve
per-role metric means. -/
structure Summary where
  totalSeconds : ℤ
  pCpu : Option ℚ
  pMem : Option ℚ
  pRd : Option ℚ
  pWr : Option ℚ
  sCpu : Option ℚ
  sMem : Option ℚ
  sRd : Option ℚ
  sWr : Option ℚ
  dCpu : Option ℚ
  dMem : Option ℚ
  dRd : Option ℚ
  dWr : Option ℚ
deriving DecidableEq

/-- Model of the summary block of `graph_pidstat`:
`int(all_stats_df["Seconds Elapsed"].max())` — which raises `ValueError`
on an empty table, where the maximum is `NaN` — and
`round(all_stats_df[col].mean(), 1)` for each of the twelve metric
columns. -/
def makeSummary (rows : List MergedRow) : Except PErr Summary :=
  match secMax rows with
  | none => .error .valueError
  | some mx =>
    .ok { totalSeconds := pyInt mx
          pCpu := (pandasMean (rows.map (·.pCpu))).map pyRound1
          pMem := (pandasMean (rows.map (·.pMem))).map pyRound1
          pRd := (pandasMean (rows.map (·.pRd))).map pyRound1
          pWr := (pandasMean (rows.map (·.pWr))).map pyRound1
          sCpu := (pandasMean (rows.map (·.sCpu))).map pyRound1
          sMem := (pandasMean (rows.map (·.sMem))).map pyRound1
          sRd := (pandasMean (rows.map (·.sRd))).map pyRound1
          sWr := (pandasMean (rows.map (·.sWr))).map pyRound1
          dCpu := (pandasMean (rows.map (·.dCpu))).map pyRound1
          dMem := (pandasMean (rows.map (·.dMem))).map pyRound1
          dRd := (pandasMean (rows.map (·.dRd))).map pyRound1
          dWr := (pandasMean (rows.map (·.dWr))).map pyRound1 }

deriving instance DecidableEq for Except

/-- A well-formed non-`DB` data line: seventeen tokens, the metric window
at positions 8 (CPU%), 14 (MEM%), 15 (kB read/s), 16 (kB written/s). -/
def sampleLine (cpu memv rdv wrv : String) : List Char :=
  ("0 a b c d e f g " ++ cpu ++ " i j k l m " ++ memv ++ " " ++ rdv ++ " " ++ wrv).toList

/-- A well-formed `DB` data line: twenty tokens, the same metric window,
and the identity token (`usage[-3]`, position 17) given by `ident`. -/
def dbSampleLine (cpu memv rdv wrv ident : String) : List Char :=
  ("0 a b c d e f g " ++ cpu ++ " i j k l m " ++ memv ++ " " ++ rdv ++ " " ++ wrv
    ++ " " ++ ident ++ " x y").toList

/-- An interval-marker line (first character `#`). -/
def markerLine : List Char := "# header".toList

/-- Pipeline raw file of the end-to-end scenario: two markers, data lines
with CPU% 10 and 20 at seconds 0 and 1. -/
def filePipelineC2 : List (List Char) :=
  [sampleLine "10" "2.0" "3" "4", markerLine, sampleLine "20" "2.0" "3" "4", markerLine]

/-- Server raw file of the end-to-end scenario: CPU% 5 and 15 at seconds
0 and 1. -/
def fileServerC2 : List (List Char) :=
  [sampleLine "5" "2.0" "3" "4", markerLine, sampleLine "15" "2.0" "3" "4", markerLine]

/-- Database raw file of the end-to-end scenario: two matching processes
at second 0 (CPU% 1 and 2) and one at second 1 (CPU% 3). -/
def fileDbC2 : List (List Char) :=
  [dbSampleLine "1" "2.0" "3" "4" "hapi", dbSampleLine "2" "2.0" "3" "4" "hapi",
   markerLine, dbSampleLine "3" "2.0" "3" "4" "hapi", markerLine]

/-- Pipeline file with two same-second data lines and no marker. -/
def filePipelineDup : List (List Char) :=
  [sampleLine "10" "2.0" "3" "4", sampleLine "20" "2.0" "3" "4"]

/-- Pipeline file whose only second is 0. -/
def fileP4 : List (List Char) := [sampleLine "10" "2.0" "3" "4"]

/-- Server file whose only second is 1. -/
def fileS4 : List (List Char) := [markerLine, sampleLine "5" "2.0" "3" "4"]

/-- Database file whose only second is 2. -/
def fileD4 : List (List Char) :=
  [markerLine, markerLine, dbSampleLine "3" "2.0" "3" "4" "hapi"]

/-- A file holding one well-formed data line and one malformed data line
(`"5 x"`: two tokens, so the fixed column window does not exist). -/
def fileMalformedMix : List (List Char) :=
  [sampleLine "10" "2.0" "3" "4", "5 x".toList]

/-- A file whose only data line is malformed. -/
def fileMalformedOnly : List (List Char) := ["5 x".toList]

/-- A file with one data line whose read-rate sample is `-5`. -/
def fileNegRead : List (List Char) := [sampleLine "10" "2.0" "-5" "4"]

/-- Database file holding one line of a non-matching process (`postgres`)
and one matching line. -/
def fileDbMixed : List (List Char) :=
  [dbSampleLine "1" "2.0" "3" "4" "postgres", dbSampleLine "2" "2.0" "3" "4" "hapi"]

/-- Database file holding only the matching line of `fileDbMixed`. -/
def fileDbOnlyHapi : List (List Char) := [dbSampleLine "2" "2.0" "3" "4" "hapi"]

/-- Parsed observations used to exercise the `DB` aggregation: two rows at
second 0 and one row at second 1. -/
def obsC1 : List RoleRow :=
  [⟨0, some 1, some 10, some 100, some 1000⟩,
   ⟨0, some 2, some 20, some 200, some 2000⟩,
   ⟨1, some 3, some 30, some 300, some 3000⟩]

/-- Parsed observations with a negative sample coexisting with a positive
one in the same second. -/
def obsC10 : List RoleRow :=
  [⟨0, some (-5), some (-5), some (-5), some (-5)⟩,
   ⟨0, some 3, some 3, some 3, some 3⟩]

/-- Merged rows used to exercise the summary computation. -/
def rowsC9 : List MergedRow :=
  [⟨0, some 10, some 1, some 2, some 3, some 5, some 1, some 2, some 3,
    some 3, some 1, some 2, some 3⟩,
   ⟨1, some 20, some 1, some 2, some 3, some 15, some 1, some 2, some 3,
    some 3, some 1, some 2, some 3⟩]

/-- Single-row tables with pairwise different seconds, used to exercise the
disjoint-join and join-law statements. -/
def tblSec0 : List RoleRow := [⟨0, some 1, some 1, some 1, some 1⟩]

/-- Single-row table at second 1. -/
def tblSec1 : List RoleRow := [⟨1, some 1, some 1, some 1, some 1⟩]

/-- Single-row table at second 2. -/
def tblSec2 : List RoleRow := [⟨2, some 1, some 1, some 1, some 1⟩]

/-! ### Helper lemmas about clamping -/

theorem clampVal_nonneg (q : ℚ) : 0 ≤ clampVal q := by
  unfold clampVal
  split
  · exact le_refl 0
  · exact not_lt.mp (by assumption)

theorem clampVal_eq_max (q : ℚ) : clampVal q = max 0 q := by
  unfold clampVal
  split
  · exact (max_eq_left (le_of_lt (by assumption))).symm
  · exact (max_eq_right (not_lt.mp (by assumption))).symm

theorem clampVal_of_nonneg {q : ℚ} (h : 0 ≤ q) : clampVal q = q := by
  unfold clampVal
  exact if_neg (not_lt.mpr h)

theorem clampVal_idem (q : ℚ) : clampVal (clampVal q) = clampVal q :=
  clampVal_of_nonneg (clampVal_nonneg q)

theorem clampCell_idem (c : Option ℚ) : clampCell (clampCell c) = clampCell c := by
  cases c with
  | none => rfl
  | some q => simp [clampCell, clampVal_idem]

/-! ### Helper lemmas about the shape of `make_pidstat_tables` results -/

theorem make_ok_struct {memGB : ℚ} {lines : List (List Char)} {role : Role}
    {t : List RoleRow} (h : make_pidstat_tables memGB (some lines) role = .ok t) :
    ∃ raw tb, parseLines role lines 0 = .ok raw ∧ buildTable memGB raw = .ok tb ∧
      t = clampTable (if role == .db then dbAggregate tb else tb) := by
  cases hp : parseLines role lines 0 with
  | error e => simp [make_pidstat_tables, hp] at h
  | ok raw =>
    cases hb : buildTable memGB raw with
    | error e => simp [make_pidstat_tables, hp, hb] at h
    | ok tb =>
      simp only [make_pidstat_tables, hp, hb, Except.ok.injEq] at h
      exact ⟨raw, tb, rfl, hb, h.symm⟩

theorem make_ok_clamp {memGB : ℚ} {file : Option (List (List Char))} {role : Role}
    {t : List RoleRow} (h : make_pidstat_tables memGB file role = .ok t) :
    ∃ u, t = clampTable u := by
  cases file with
  | none => exact absurd h (by simp [make_pidstat_tables])
  | some lines =>
    obtain ⟨raw, tb, _, _, ht⟩ := make_ok_struct h
    exact ⟨_, ht⟩

/-! ### Claim C7 — clamping of negative values, idempotence -/

theorem clampCell_getD_nonneg (c : Option ℚ) : 0 ≤ (clampCell c).getD 0 := by
  cases c with
  | none => exact le_refl 0
  | some q => exact clampVal_nonneg q

/-- Claim C7: after aggregation, every negative metric value anywhere in a
produced RoleSeries is replaced by 0 (every table `make_pidstat_tables`
returns has only non-negative numeric cells), and the clamp is idempotent:
clamping an already clamped cell changes nothing. -/
theorem claim_C7_clamp_nonneg_idem :
    (∀ (memGB : ℚ) (file : Option (List (List Char))) (role : Role) (t : List RoleRow),
        make_pidstat_tables memGB file role = .ok t →
        ∀ r ∈ t, 0 ≤ r.sec ∧ 0 ≤ r.cpu.getD 0 ∧ 0 ≤ r.mem.getD 0 ∧
          0 ≤ r.rd.getD 0 ∧ 0 ≤ r.wr.getD 0)
  ∧ (∀ c : Option ℚ, clampCell (clampCell c) = clampCell c) := by
  constructor
  · intro memGB file role t h r hr
    obtain ⟨u, rfl⟩ := make_ok_clamp h
    obtain ⟨r0, _, rfl⟩ := List.mem_map.mp hr
    exact ⟨clampVal_nonneg _, clampCell_getD_nonneg _, clampCell_getD_nonneg _,
      clampCell_getD_nonneg _, clampCell_getD_nonneg _⟩
  · exact clampCell_idem

/-- Witness for C7: the raw line with read rate `-5` produces the value 0
in the resulting series, and the produced table is non-negative. -/
theorem claim_C7_witness :
    ((make_pidstat_tables 16 (some fileNegRead) .pipeline).toOption.map
        (fun t => t.map (·.rd)) = some [some 0])
  ∧ (∀ r ∈ [(⟨0, some 10, some (8/25), some 0, some 4⟩ : RoleRow)],
      0 ≤ r.sec ∧ 0 ≤ r.cpu.getD 0 ∧ 0 ≤ r.mem.getD 0 ∧
        0 ≤ r.rd.getD 0 ∧ 0 ≤ r.wr.getD 0) :=
  ⟨by with_unfolding_all rfl,
   claim_C7_clamp_nonneg_idem.1 16 (some fileNegRead) .pipeline
     [⟨0, some 10, some (8/25), some 0, some 4⟩]
     (by with_unfolding_all rfl)⟩

/-! ### Claim C2 — end-to-end scenario -/

/-- Claim C2: with the machine memory fixed at 16 GB, the end-to-end
scenario — Pipeline file with CPU% 10 and 20 at seconds 0 and 1, Server
file with CPU% 5 and 15, DB file with two matching processes at second 0
(CPU% 1 and 2) and one at second 1 (CPU% 3) — yields a merged table of
exactly 2 rows whose row for second 0 carries DB CPU% 3, and a summary
whose mean Pipeline CPU% is 15. -/
theorem claim_C2_end_to_end :
    ((mergedTable 16 (some filePipelineC2) (some fileServerC2) (some fileDbC2)).map (·.length)
        = .ok 2)
  ∧ ((mergedTable 16 (some filePipelineC2) (some fileServerC2) (some fileDbC2)).toOption.bind
        (fun rows => (rows.find? fun r => decide (r.sec = 0)).map (·.dCpu)) = some (some 3))
  ∧ ((mergedTable 16 (some filePipelineC2) (some fileServerC2) (some fileDbC2)).toOption.bind
        (fun rows => (makeSummary rows).toOption.map (·.pCpu)) = some (some 15)) :=
  ⟨by with_unfolding_all rfl, by with_unfolding_all rfl, by with_unfolding_all rfl⟩

/-! ### Counterexamples to C3, C4, C5 -/

/-- Counterexample to C3: a Pipeline file with two same-second data lines
produces a table whose seconds column is `[0, 0]` — not unique, not
strictly increasing, and both observations are retained rather than only
the first. -/
theorem claim_C3_counterexample :
    (make_pidstat_tables 16 (some filePipelineDup) .pipeline).toOption.map
      (fun t => t.map (·.sec)) = some [0, 0] := by with_unfolding_all rfl

/-- Counterexample to C4: three role files sharing no common second merge
into the empty table without any error being raised. -/
theorem claim_C4_counterexample :
    mergedTable 16 (some fileP4) (some fileS4) (some fileD4) = .ok [] := by
  with_unfolding_all rfl

/-- Counterexample to C5: a file containing a data line from which the
fixed column window cannot be extracted (`"5 x"`, two tokens) parses
without any error when a well-formed data line is also present; the
malformed line becomes a row of `NaN` cells. -/
theorem claim_C5_counterexample :
    make_pidstat_tables 16 (some fileMalformedMix) .pipeline
      = .ok [⟨0, some 10, some (8/25), some 3, some 4⟩, ⟨0, none, none, none, none⟩] := by
  with_unfolding_all rfl

/-! ### Claim C8 — DB identity filtering -/

theorem parseLines_db_skip (post : List (List Char)) (l : List Char)
    (hd : (l.headD '\n').isDigit = true)
    (h3 : ¬ (pyTokens l).length < 3)
    (hid : (pyTokens l).getD ((pyTokens l).length - 3) [] ≠ hapiTok) :
    ∀ (pre : List (List Char)) (sec : ℕ),
      parseLines .db (pre ++ l :: post) sec = parseLines .db (pre ++ post) sec := by
  intro pre
  induction pre with
  | nil =>
    intro sec
    have hd' : (l.head?.getD '\n').isDigit = true := by
      simpa [List.headD_eq_head?_getD] using hd
    have hid' : ¬ (pyTokens l)[(pyTokens l).length - 3]?.getD [] = hapiTok := by
      simpa [List.getD_eq_getElem?_getD] using hid
    simp [parseLines, h3, hid', hd', bne_iff_ne]
  | cons p pre ih =>
    intro sec
    simp only [List.cons_append, List.append_eq, parseLines, ih]

/-- Claim C8: for the `DB` role, a data line whose identity token does not
match `"hapi"` is discarded entirely by the parsing loop: removing it from
the raw file leaves the produced table unchanged, so such a line
contributes nothing to any `DB` value of its second. -/
theorem claim_C8_db_identity_filter (memGB : ℚ) (pre post : List (List Char)) (l : List Char)
    (hd : (l.headD '\n').isDigit = true)
    (h3 : ¬ (pyTokens l).length < 3)
    (hid : (pyTokens l).getD ((pyTokens l).length - 3) [] ≠ hapiTok) :
    make_pidstat_tables memGB (some (pre ++ l :: post)) .db
      = make_pidstat_tables memGB (some (pre ++ post)) .db := by
  simp only [make_pidstat_tables, parseLines_db_skip post l hd h3 hid]

/-- Witness for C8: a `DB` file holding one non-matching (`postgres`) line
and one matching line produces exactly the table of the file without the
non-matching line. -/
theorem claim_C8_witness :
    make_pidstat_tables 16 (some fileDbMixed) .db
      = make_pidstat_tables 16 (some fileDbOnlyHapi) .db :=
  claim_C8_db_identity_filter 16 [] fileDbOnlyHapi
    (dbSampleLine "1" "2.0" "3" "4" "postgres") (by decide) (by decide) (by decide)

/-! ### Claim C4 — empty join result -/

/-- Amended C4: when the three role series share no common second, the
inner join itself completes without error and returns the empty table; the
failure happens afterwards, in the summary computation, where `int()` of
the empty seconds column's `NaN` maximum raises `ValueError`. -/
theorem claim_C4_amended (ps ss ds : List RoleRow)
    (h : ∀ q : ℚ, ¬(q ∈ ps.map (·.sec) ∧ q ∈ ss.map (·.sec) ∧ q ∈ ds.map (·.sec))) :
    merge3 ps ss ds = [] ∧ makeSummary (merge3 ps ss ds) = .error .valueError := by
  have hm : merge3 ps ss ds = [] := by
    induction ps with
    | nil => rfl
    | cons p ps ih =>
      have hinner : ((ss.filter fun s => decide (s.sec = p.sec)).flatMap fun s =>
          (ds.filter fun d => decide (d.sec = p.sec)).map fun d =>
            (⟨p.sec, p.cpu, p.mem, p.rd, p.wr, s.cpu, s.mem, s.rd, s.wr,
              d.cpu, d.mem, d.rd, d.wr⟩ : MergedRow)) = [] := by
        by_cases hs : p.sec ∈ ss.map (·.sec)
        · by_cases hd : p.sec ∈ ds.map (·.sec)
          · exact absurd ⟨List.mem_map_of_mem _ (List.mem_cons_self p ps), hs, hd⟩ (h p.sec)
          · have : (ds.filter fun d => decide (d.sec = p.sec)) = [] := by
              rw [List.filter_eq_nil_iff]
              intro d hdm
              simp only [decide_eq_true_eq]
              exact fun he => hd (he ▸ List.mem_map_of_mem _ hdm)
            simp [this]
        · have : (ss.filter fun s => decide (s.sec = p.sec)) = [] := by
            rw [List.filter_eq_nil_iff]
            intro s hsm
            simp only [decide_eq_true_eq]
            exact fun he => hs (he ▸ List.mem_map_of_mem _ hsm)
          simp [this]
      have hrest : merge3 ps ss ds = [] := by
        apply ih
        intro q hq
        exact h q ⟨List.mem_map.mpr (by
          obtain ⟨r, hr, he⟩ := List.mem_map.mp hq.1
          exact ⟨r, List.mem_cons_of_mem p hr, he⟩), hq.2.1, hq.2.2⟩
      have step : merge3 (p :: ps) ss ds
          = (((ss.filter fun s => decide (s.sec = p.sec)).flatMap fun s =>
              (ds.filter fun d => decide (d.sec = p.sec)).map fun d =>
                (⟨p.sec, p.cpu, p.mem, p.rd, p.wr, s.cpu, s.mem, s.rd, s.wr,
                  d.cpu, d.mem, d.rd, d.wr⟩ : MergedRow)) ++ merge3 ps ss ds) := rfl
      rw [step, hinner, hrest]
      rfl
  exact ⟨hm, by rw [hm]; rfl⟩

/-- Witness for C4 (amended): three single-row series at seconds 0, 1 and
2 share no second; the merge is empty and the summary computation fails
with `ValueError`. -/
theorem claim_C4_witness :
    merge3 tblSec0 tblSec1 tblSec2 = []
      ∧ makeSummary (merge3 tblSec0 tblSec1 tblSec2) = .error .valueError :=
  claim_C4_amended tblSec0 tblSec1 tblSec2 (by
    intro q hq
    rcases hq with ⟨h0, h1, _⟩
    simp only [tblSec0, tblSec1, List.map_cons, List.map_nil, List.mem_singleton] at h0 h1
    rw [h0] at h1
    norm_num at h1)

/-! ### Claim C5 — error behaviour of the parser -/

theorem parseLines_nondb {role : Role} (hrole : role ≠ .db) :
    ∀ (lines : List (List Char)) (sec : ℕ),
      parseLines role lines sec = .ok (parsedSimple lines sec) := by
  have hfalse : (role == Role.db) = false := by
    simp [beq_eq_false_iff_ne, hrole]
  intro lines
  induction lines with
  | nil => intro sec; rfl
  | cons l ls ih =>
    intro sec
    simp only [parseLines, parsedSimple, hfalse, Bool.false_and, Bool.false_eq_true,
      if_false, ih]
    split
    · rfl
    · split <;> rfl

theorem parsedSimple_ne_nil :
    ∀ (lines : List (List Char)), (∃ l ∈ lines, (l.headD '\n').isDigit = true) →
      ∀ sec, parsedSimple lines sec ≠ [] := by
  intro lines
  induction lines with
  | nil => intro hex; simp at hex
  | cons l ls ih =>
    intro hex sec
    by_cases hdig : (l.headD '\n').isDigit = true
    · simp only [parsedSimple, if_pos hdig]
      exact List.cons_ne_nil _ _
    · obtain ⟨l', hl', hd'⟩ := hex
      rcases List.mem_cons.mp hl' with rfl | hmem
      · exact absurd hd' hdig
      · have hex' : ∃ x ∈ ls, (x.headD '\n').isDigit = true := ⟨l', hmem, hd'⟩
        simp only [parsedSimple, if_neg hdig]
        by_cases hm : ((l.headD '\n') == '#') = true
        · rw [if_pos hm]; exact ih hex' _
        · rw [if_neg hm]; exact ih hex' _

theorem parsedSimple_toks :
    ∀ (lines : List (List Char)) (sec : ℕ), ∀ r ∈ parsedSimple lines sec,
      ∃ l ∈ lines, (l.headD '\n').isDigit = true ∧ r.toks = extractToks (pyTokens l) := by
  intro lines
  induction lines with
  | nil => intro sec r hr; simp [parsedSimple] at hr
  | cons l ls ih =>
    intro sec r hr
    by_cases hdig : (l.headD '\n').isDigit = true
    · rw [parsedSimple, if_pos hdig] at hr
      rcases List.mem_cons.mp hr with h | h
      · exact ⟨l, List.mem_cons_self l ls, hdig, by rw [h]⟩
      · obtain ⟨l', hl', hd', ht'⟩ := ih sec r h
        exact ⟨l', List.mem_cons_of_mem l hl', hd', ht'⟩
    · rw [parsedSimple, if_neg hdig] at hr
      by_cases hm : ((l.headD '\n') == '#') = true
      · rw [if_pos hm] at hr
        obtain ⟨l', hl', hd', ht'⟩ := ih (sec + 1) r hr
        exact ⟨l', List.mem_cons_of_mem l hl', hd', ht'⟩
      · rw [if_neg hm] at hr
        obtain ⟨l', hl', hd', ht'⟩ := ih sec r hr
        exact ⟨l', List.mem_cons_of_mem l hl', hd', ht'⟩

theorem extractToks_short {full : List (List Char)} (h : full.length < 17) :
    (extractToks full).length ≤ 3 := by
  have h16 : full.get? 16 = none := List.get?_eq_none.mpr (by omega)
  unfold extractToks
  rw [h16]
  rcases full.get? 8 with _ | x <;> rcases full.get? 14 with _ | y <;>
    rcases full.get? 15 with _ | z <;> simp [List.filterMap]

theorem maxRowLen_le {rows : List RawRow} (h : ∀ r ∈ rows, rowLen r ≤ 4) :
    maxRowLen rows ≤ 4 := by
  have aux : ∀ (rs : List RawRow) (init : ℕ), init ≤ 4 → (∀ r ∈ rs, rowLen r ≤ 4) →
      rs.foldl (fun m r => max m (rowLen r)) init ≤ 4 := by
    intro rs
    induction rs with
    | nil => intro init hi _; exact hi
    | cons r rs ih =>
      intro init hi hall
      exact ih _ (max_le hi (hall r (List.mem_cons_self r rs)))
        (fun x hx => hall x (List.mem_cons_of_mem r hx))
  exact aux rows 0 (by omega) h

/-- Amended C5: a non-existent file fails with `NotFoundError`, but a
malformed data line does not by itself raise a `FormatError`-style
failure: construction fails (with `ValueError`) only when data lines are
present and none of them carries the full seventeen-token window — for a
single-process role a file whose data lines are all malformed fails with
`ValueError` at the table constructor, not at the line. -/
theorem claim_C5_amended :
    (∀ (memGB : ℚ) (role : Role), make_pidstat_tables memGB none role = .error .notFound)
  ∧ (∀ (memGB : ℚ) (lines : List (List Char)),
      (∃ l ∈ lines, (l.headD '\n').isDigit = true) →
      (∀ l ∈ lines, (l.headD '\n').isDigit = true → (pyTokens l).length < 17) →
      make_pidstat_tables memGB (some lines) .pipeline = .error .valueError) := by
  constructor
  · intro memGB role; rfl
  · intro memGB lines hex hall
    have hp := @parseLines_nondb Role.pipeline (by simp) lines 0
    have hne := parsedSimple_ne_nil lines hex 0
    have hlen : ∀ r ∈ parsedSimple lines 0, rowLen r ≤ 4 := by
      intro r hr
      obtain ⟨l, hl, hdig, htoks⟩ := parsedSimple_toks lines 0 r hr
      have h3 := extractToks_short (hall l hl hdig)
      simp only [rowLen, htoks]
      omega
    have hm4 : maxRowLen (parsedSimple lines 0) ≤ 4 := maxRowLen_le hlen
    have hcond : (!(parsedSimple lines 0).isEmpty
        && (maxRowLen (parsedSimple lines 0) != 5)) = true := by
      rcases hps : parsedSimple lines 0 with _ | ⟨r, rs⟩
      · exact absurd hps hne
      · rw [hps] at hm4
        simp [bne_iff_ne]
        omega
    have hb : buildTable memGB (parsedSimple lines 0) = .error .valueError := by
      unfold buildTable
      rw [if_pos hcond]
    simp only [make_pidstat_tables, hp, hb]

/-- Witness for C5 (amended): the parser fails with `NotFoundError` on a
missing file and with `ValueError` on a file whose single data line lacks
the column window. -/
theorem claim_C5_witness :
    make_pidstat_tables 16 none .server = .error .notFound
  ∧ make_pidstat_tables 16 (some fileMalformedOnly) .pipeline = .error .valueError :=
  ⟨claim_C5_amended.1 16 .server,
   claim_C5_amended.2 16 fileMalformedOnly
     ⟨"5 x".toList, by decide, by decide⟩ (by decide)⟩

/-! ### Claims C1 and C10 — DB aggregation -/

theorem dedupBySecAux_sublist : ∀ (l : List RoleRow) (seen : List ℚ),
    List.Sublist (dedupBySecAux l seen) l := by
  intro l
  induction l with
  | nil => intro seen; exact List.Sublist.refl []
  | cons r rs ih =>
    intro seen
    simp only [dedupBySecAux]
    split
    · exact (ih seen).cons r
    · exact (ih _).cons₂ r

theorem contains_iff_mem_rat {seen : List ℚ} {s : ℚ} :
    seen.contains s = true ↔ s ∈ seen := by
  simp

theorem mem_secs_dedupBySecAux : ∀ (l : List RoleRow) (seen : List ℚ) (s : ℚ),
    s ∈ (dedupBySecAux l seen).map (·.sec) ↔ (s ∈ l.map (·.sec) ∧ s ∉ seen) := by
  intro l
  induction l with
  | nil => intro seen s; simp [dedupBySecAux]
  | cons r rs ih =>
    intro seen s
    simp only [dedupBySecAux]
    split
    case isTrue hc =>
      rw [ih]
      simp only [List.map_cons, List.mem_cons]
      constructor
      · rintro ⟨h1, h2⟩
        exact ⟨Or.inr h1, h2⟩
      · rintro ⟨h1 | h1, h2⟩
        · exact absurd (h1 ▸ contains_iff_mem_rat.mp hc) h2
        · exact ⟨h1, h2⟩
    case isFalse hc =>
      simp only [List.map_cons, List.mem_cons]
      rw [ih]
      constructor
      · rintro (h | ⟨h1, h2⟩)
        · refine ⟨Or.inl h, fun hs => ?_⟩
          exact hc (contains_iff_mem_rat.mpr (h ▸ hs))
        · exact ⟨Or.inr h1, fun hs => h2 (List.mem_cons_of_mem _ hs)⟩
      · rintro ⟨h1 | h1, h2⟩
        · exact Or.inl h1
        · by_cases hrs : s = r.sec
          · exact Or.inl hrs
          · exact Or.inr ⟨h1, fun hs => (List.mem_cons.mp hs).elim hrs h2⟩

theorem secs_nodup_dedupBySecAux : ∀ (l : List RoleRow) (seen : List ℚ),
    ((dedupBySecAux l seen).map (·.sec)).Nodup := by
  intro l
  induction l with
  | nil => intro seen; simp [dedupBySecAux]
  | cons r rs ih =>
    intro seen
    simp only [dedupBySecAux]
    split
    · exact ih seen
    · simp only [List.map_cons, List.nodup_cons]
      refine ⟨?_, ih _⟩
      rw [mem_secs_dedupBySecAux]
      rintro ⟨_, h2⟩
      exact h2 (List.mem_cons_self _ _)

theorem transformAll_secs (t : List RoleRow) :
    (transformAll t).map (·.sec) = t.map (·.sec) := by
  simp only [transformAll, List.map_map]
  rfl

theorem dbAggregate_fields {t : List RoleRow} :
    ∀ r ∈ dbAggregate t,
      r.cpu = some (sumBySec t r.sec (·.cpu)) ∧ r.mem = some (sumBySec t r.sec (·.mem))
        ∧ r.rd = some (sumBySec t r.sec (·.rd)) ∧ r.wr = some (sumBySec t r.sec (·.wr)) := by
  intro r hr
  have hr' : r ∈ transformAll t := (dedupBySecAux_sublist _ _).subset hr
  obtain ⟨r0, _, rfl⟩ := List.mem_map.mp hr'
  exact ⟨rfl, rfl, rfl, rfl⟩

theorem filterMap_eq_map_getD {α : Type} (f : α → Option ℚ) :
    ∀ (l : List α), (∀ x ∈ l, (f x).isSome) →
      l.filterMap f = l.map (fun x => (f x).getD 0) := by
  intro l
  induction l with
  | nil => intro _; rfl
  | cons x xs ih =>
    intro h
    rcases hfx : f x with _ | q
    · exact absurd (h x (List.mem_cons_self _ _)) (by simp [hfx])
    · simp [List.filterMap_cons, hfx, ih (fun y hy => h y (List.mem_cons_of_mem _ hy))]

theorem sumBySec_eq_sum_getD {t : List RoleRow} {s : ℚ} {f : RoleRow → Option ℚ}
    (h : ∀ x ∈ t, (f x).isSome) :
    sumBySec t s f
      = ((t.filter fun x => decide (x.sec = s)).map fun x => (f x).getD 0).sum := by
  unfold sumBySec
  rw [filterMap_eq_map_getD]
  intro x hx
  exact h x (List.mem_filter.mp hx).1

/-- Claim C1: for the `DB` role the aggregation step (grouped summation
plus duplicate removal) gives, for every remaining row, the sum of each
metric over all same-second observations — not a single observation and
not an average — and exactly one row per distinct second remains. -/
theorem claim_C1_db_sum_per_second (t : List RoleRow)
    (hnum : ∀ r ∈ t, r.cpu.isSome ∧ r.mem.isSome ∧ r.rd.isSome ∧ r.wr.isSome) :
    (∀ r ∈ dbAggregate t,
        r.cpu = some (((t.filter fun x => decide (x.sec = r.sec)).map fun x => x.cpu.getD 0).sum)
      ∧ r.mem = some (((t.filter fun x => decide (x.sec = r.sec)).map fun x => x.mem.getD 0).sum)
      ∧ r.rd = some (((t.filter fun x => decide (x.sec = r.sec)).map fun x => x.rd.getD 0).sum)
      ∧ r.wr = some (((t.filter fun x => decide (x.sec = r.sec)).map fun x => x.wr.getD 0).sum))
  ∧ ((dbAggregate t).map (·.sec)).Nodup
  ∧ (∀ s : ℚ, s ∈ (dbAggregate t).map (·.sec) ↔ s ∈ t.map (·.sec)) := by
  refine ⟨?_, ?_, ?_⟩
  · intro r hr
    obtain ⟨h1, h2, h3, h4⟩ := dbAggregate_fields r hr
    exact ⟨by rw [h1, sumBySec_eq_sum_getD (fun x hx => (hnum x hx).1)],
           by rw [h2, sumBySec_eq_sum_getD (fun x hx => (hnum x hx).2.1)],
           by rw [h3, sumBySec_eq_sum_getD (fun x hx => (hnum x hx).2.2.1)],
           by rw [h4, sumBySec_eq_sum_getD (fun x hx => (hnum x hx).2.2.2)]⟩
  · exact secs_nodup_dedupBySecAux (transformAll t) []
  · intro s
    have h := mem_secs_dedupBySecAux (transformAll t) [] s
    rw [transformAll_secs] at h
    simpa using h

/-- Witness for C1: two matching observations at second 0 (CPU% 1 and 2)
and one at second 1 (CPU% 3) aggregate to the per-second sums with one row
per second. -/
theorem claim_C1_witness :
    (∀ r ∈ dbAggregate obsC1,
        r.cpu = some (((obsC1.filter fun x => decide (x.sec = r.sec)).map
            fun x => x.cpu.getD 0).sum)
      ∧ r.mem = some (((obsC1.filter fun x => decide (x.sec = r.sec)).map
            fun x => x.mem.getD 0).sum)
      ∧ r.rd = some (((obsC1.filter fun x => decide (x.sec = r.sec)).map
            fun x => x.rd.getD 0).sum)
      ∧ r.wr = some (((obsC1.filter fun x => decide (x.sec = r.sec)).map
            fun x => x.wr.getD 0).sum))
  ∧ ((dbAggregate obsC1).map (·.sec)).Nodup
  ∧ (∀ s : ℚ, s ∈ (dbAggregate obsC1).map (·.sec) ↔ s ∈ obsC1.map (·.sec)) :=
  claim_C1_db_sum_per_second obsC1 (by decide)

/-- Claim C10: for the `DB` role, negative-value clamping is applied only
to the per-second sums: every row of the clamped aggregate carries
`max 0 s` where `s` is the plain sum of the matching observations, so a
negative observation offsets positive ones instead of being zeroed
individually. -/
theorem claim_C10_clamp_applies_to_sums (t : List RoleRow)
    (h0 : ∀ r ∈ t, 0 ≤ r.sec)
    (hnum : ∀ r ∈ t, r.cpu.isSome ∧ r.mem.isSome ∧ r.rd.isSome ∧ r.wr.isSome) :
    ∀ r ∈ clampTable (dbAggregate t),
        r.cpu = some (max 0 (((t.filter fun x => decide (x.sec = r.sec)).map
            fun x => x.cpu.getD 0).sum))
      ∧ r.mem = some (max 0 (((t.filter fun x => decide (x.sec = r.sec)).map
            fun x => x.mem.getD 0).sum))
      ∧ r.rd = some (max 0 (((t.filter fun x => decide (x.sec = r.sec)).map
            fun x => x.rd.getD 0).sum))
      ∧ r.wr = some (max 0 (((t.filter fun x => decide (x.sec = r.sec)).map
            fun x => x.wr.getD 0).sum)) := by
  intro r hr
  obtain ⟨r0, hr0, rfl⟩ := List.mem_map.mp hr
  have hsecmem : r0.sec ∈ t.map (·.sec) := by
    have ha : r0.sec ∈ (dbAggregate t).map (·.sec) := List.mem_map_of_mem _ hr0
    have hb := (mem_secs_dedupBySecAux (transformAll t) [] r0.sec).mp ha
    rw [transformAll_secs] at hb
    exact hb.1
  have hsec0 : 0 ≤ r0.sec := by
    obtain ⟨x, hx, he⟩ := List.mem_map.mp hsecmem
    exact he ▸ h0 x hx
  have hsec : (clampRow r0).sec = r0.sec := clampVal_of_nonneg hsec0
  obtain ⟨h1, h2, h3, h4⟩ := dbAggregate_fields r0 hr0
  have key : ∀ (f : RoleRow → Option ℚ), (∀ x ∈ t, (f x).isSome) →
      ∀ c, c = some (sumBySec t r0.sec f) → clampCell c
        = some (max 0 (((t.filter fun x => decide (x.sec = (clampRow r0).sec)).map
            fun x => (f x).getD 0).sum)) := by
    intro f hf c hc
    rw [hc]
    simp only [clampCell, clampVal_eq_max]
    rw [hsec, sumBySec_eq_sum_getD hf]
  exact ⟨key _ (fun x hx => (hnum x hx).1) _ h1,
         key _ (fun x hx => (hnum x hx).2.1) _ h2,
         key _ (fun x hx => (hnum x hx).2.2.1) _ h3,
         key _ (fun x hx => (hnum x hx).2.2.2) _ h4⟩

/-- Witness for C10: observations `-5` and `3` in the same second produce
the single clamped value `max 0 (-2) = 0` — the negative sample offsets
the positive one rather than being replaced by zero on its own. -/
theorem claim_C10_witness :
    ((clampTable (dbAggregate obsC10)).map (·.cpu) = [some 0])
  ∧ (∀ r ∈ clampTable (dbAggregate obsC10),
        r.cpu = some (max 0 (((obsC10.filter fun x => decide (x.sec = r.sec)).map
            fun x => x.cpu.getD 0).sum))
      ∧ r.mem = some (max 0 (((obsC10.filter fun x => decide (x.sec = r.sec)).map
            fun x => x.mem.getD 0).sum))
      ∧ r.rd = some (max 0 (((obsC10.filter fun x => decide (x.sec = r.sec)).map
            fun x => x.rd.getD 0).sum))
      ∧ r.wr = some (max 0 (((obsC10.filter fun x => decide (x.sec = r.sec)).map
            fun x => x.wr.getD 0).sum))) :=
  ⟨by with_unfolding_all rfl,
   claim_C10_clamp_applies_to_sums obsC10 (by decide) (by decide)⟩

/-! ### Claim C3 — ordering and uniqueness of the seconds column -/

theorem parseLines_sorted {role : Role} :
    ∀ (lines : List (List Char)) (sec : ℕ) (rows : List RawRow),
      parseLines role lines sec = .ok rows →
      (rows.map (·.sec)).Pairwise (· ≤ ·) ∧ ∀ r ∈ rows, sec ≤ r.sec := by
  intro lines
  induction lines with
  | nil =>
    intro sec rows h
    simp only [parseLines, Except.ok.injEq] at h
    subst h
    exact ⟨List.Pairwise.nil, by simp⟩
  | cons l ls ih =>
    intro sec rows h
    simp only [parseLines] at h
    split at h
    · split at h
      · exact absurd h (by simp)
      · split at h
        · exact ih sec rows h
        · split at h
          · exact absurd h (by simp)
          · rename_i rest heq
            simp only [Except.ok.injEq] at h
            subst h
            obtain ⟨hp, hbound⟩ := ih sec rest heq
            refine ⟨?_, ?_⟩
            · simp only [List.map_cons]
              refine List.Pairwise.cons ?_ hp
              intro b hbm
              obtain ⟨x, hx, he⟩ := List.mem_map.mp hbm
              exact he ▸ hbound x hx
            · intro r hr
              rcases List.mem_cons.mp hr with rfl | hr'
              · exact le_refl sec
              · exact hbound r hr'
    · split at h
      · obtain ⟨hp, hbound⟩ := ih (sec + 1) rows h
        exact ⟨hp, fun r hr => Nat.le_of_succ_le (hbound r hr)⟩
      · exact ih sec rows h

theorem buildRow_sec {memGB : ℚ} {r : RawRow} {row : RoleRow}
    (h : buildRow memGB r = .ok row) : row.sec = (r.sec : ℚ) := by
  unfold buildRow at h
  split at h
  · simp only [Except.ok.injEq] at h
    subst h
    rfl
  all_goals exact absurd h (by simp)

theorem buildRows_secs {memGB : ℚ} :
    ∀ (raws : List RawRow) (t : List RoleRow), buildRows memGB raws = .ok t →
      t.map (·.sec) = raws.map (fun r => (r.sec : ℚ)) := by
  intro raws
  induction raws with
  | nil =>
    intro t h
    simp only [buildRows, Except.ok.injEq] at h
    subst h
    rfl
  | cons r rs ih =>
    intro t h
    simp only [buildRows] at h
    split at h
    · rename_i row rest heq1 heq2
      simp only [Except.ok.injEq] at h
      subst h
      simp only [List.map_cons, buildRow_sec heq1, ih rest heq2]
    all_goals exact absurd h (by simp)

theorem buildTable_ok {memGB : ℚ} {raws : List RawRow} {t : List RoleRow}
    (h : buildTable memGB raws = .ok t) : buildRows memGB raws = .ok t := by
  unfold buildTable at h
  split at h
  · exact absurd h (by simp)
  · exact h

theorem clampTable_secs (u : List RoleRow) (hpos : ∀ x ∈ u.map (·.sec), 0 ≤ x) :
    (clampTable u).map (·.sec) = u.map (·.sec) := by
  unfold clampTable
  rw [List.map_map]
  apply List.map_congr_left
  intro r hr
  show clampVal r.sec = r.sec
  exact clampVal_of_nonneg (hpos r.sec (List.mem_map_of_mem _ hr))

/-- Amended C3: for every successfully parsed raw file the seconds column
is non-decreasing for every role, and for the `DB` role (where duplicate
removal happens) it is strictly increasing, hence unique; for
`Pipeline`/`Server` no per-second duplicate removal happens, so duplicate
seconds are all retained. -/
theorem claim_C3_amended (memGB : ℚ) (lines : List (List Char)) (role : Role)
    (t : List RoleRow) (h : make_pidstat_tables memGB (some lines) role = .ok t) :
    ((t.map (·.sec)).Pairwise (· ≤ ·))
  ∧ (role = .db → (t.map (·.sec)).Pairwise (· < ·)) := by
  obtain ⟨raw, tb, hp, hb, ht⟩ := make_ok_struct h
  obtain ⟨hsort, _⟩ := parseLines_sorted lines 0 raw hp
  have htb := buildRows_secs raw tb (buildTable_ok hb)
  have htb_sorted : (tb.map (·.sec)).Pairwise (· ≤ ·) := by
    rw [htb]
    exact List.pairwise_map.mpr ((List.pairwise_map.mp hsort).imp
      (fun hab => Nat.cast_le.mpr hab))
  have htb_pos : ∀ x ∈ tb.map (·.sec), 0 ≤ x := by
    intro x hx
    rw [htb] at hx
    obtain ⟨r0, _, he⟩ := List.mem_map.mp hx
    exact he ▸ Nat.cast_nonneg r0.sec
  by_cases hrole : role = .db
  · subst hrole
    simp only [beq_self_eq_true, if_true] at ht
    have hsub : List.Sublist ((dbAggregate tb).map (·.sec)) (tb.map (·.sec)) := by
      have h1 := (dedupBySecAux_sublist (transformAll tb) []).map (·.sec)
      rwa [transformAll_secs] at h1
    have hagg_pos : ∀ x ∈ (dbAggregate tb).map (·.sec), 0 ≤ x :=
      fun x hx => htb_pos x (hsub.subset hx)
    have hsecs : t.map (·.sec) = (dbAggregate tb).map (·.sec) := by
      rw [ht]
      exact clampTable_secs _ hagg_pos
    have hle : (t.map (·.sec)).Pairwise (· ≤ ·) := by
      rw [hsecs]
      exact htb_sorted.sublist hsub
    have hnd : (t.map (·.sec)).Nodup := by
      rw [hsecs]
      exact secs_nodup_dedupBySecAux (transformAll tb) []
    exact ⟨hle, fun _ => (hle.and hnd).imp (fun hab => lt_of_le_of_ne hab.1 hab.2)⟩
  · have hne : (role == Role.db) = false := by
      simp [beq_eq_false_iff_ne, hrole]
    rw [hne] at ht
    simp only [Bool.false_eq_true, if_false] at ht
    have hsecs : t.map (·.sec) = tb.map (·.sec) := by
      rw [ht]
      exact clampTable_secs _ htb_pos
    exact ⟨hsecs ▸ htb_sorted, fun habs => absurd habs hrole⟩

/-- Witness for C3 (amended): the `DB` file of the end-to-end scenario
yields the strictly increasing seconds column `[0, 1]`. -/
theorem claim_C3_witness :
    (([(⟨0, some 3, some (16/25), some 6, some 8⟩ : RoleRow),
       ⟨1, some 3, some (8/25), some 3, some 4⟩].map (·.sec)).Pairwise (· ≤ ·))
  ∧ (Role.db = Role.db →
      (([(⟨0, some 3, some (16/25), some 6, some 8⟩ : RoleRow),
         ⟨1, some 3, some (8/25), some 3, some 4⟩].map (·.sec)).Pairwise (· < ·))) :=
  claim_C3_amended 16 fileDbC2 .db
    [⟨0, some 3, some (16/25), some 6, some 8⟩, ⟨1, some 3, some (8/25), some 3, some 4⟩]
    (by with_unfolding_all rfl)

/-! ### Claim C6 — inner-join law -/

theorem length_le_one_cases {α : Type} {l : List α} (h : l.length ≤ 1) :
    l = [] ∨ ∃ a, l = [a] := by
  match l with
  | [] => exact Or.inl rfl
  | [a] => exact Or.inr ⟨a, rfl⟩
  | a :: b :: t => simp at h

theorem filter_sec_length_le_one {l : List RoleRow} (h : (l.map (·.sec)).Nodup) (v : ℚ) :
    (l.filter fun x => decide (x.sec = v)).length ≤ 1 := by
  induction l with
  | nil => simp
  | cons a l ih =>
    simp only [List.map_cons, List.nodup_cons] at h
    obtain ⟨hnm, hnd⟩ := h
    by_cases ha : a.sec = v
    · rw [List.filter_cons_of_pos (by simpa using ha)]
      have h0 : (l.filter fun x => decide (x.sec = v)).length = 0 := by
        rw [List.length_eq_zero, List.filter_eq_nil_iff]
        intro x hx
        simp only [decide_eq_true_eq]
        intro he
        exact hnm (List.mem_map.mpr ⟨x, hx, he.trans ha.symm⟩)
      simp [h0]
    · rw [List.filter_cons_of_neg (by simpa using ha)]
      exact ih hnd

theorem mergeBlock_sec {ss ds : List RoleRow} {p : RoleRow} :
    ∀ r ∈ mergeBlock ss ds p, r.sec = p.sec := by
  intro r hr
  simp only [mergeBlock, List.mem_flatMap, List.mem_map] at hr
  obtain ⟨s, _, d, _, rfl⟩ := hr
  rfl

theorem mergeBlock_length {ss ds : List RoleRow}
    (hs : (ss.map (·.sec)).Nodup) (hd : (ds.map (·.sec)).Nodup) (p : RoleRow) :
    (mergeBlock ss ds p).length ≤ 1 := by
  unfold mergeBlock
  rcases length_le_one_cases (filter_sec_length_le_one hs p.sec) with h0 | ⟨s, h1⟩
  · rw [h0]
    simp
  · rw [h1]
    simp only [List.flatMap_cons, List.flatMap_nil, List.append_nil, List.length_map]
    exact filter_sec_length_le_one hd p.sec

theorem merge3_mem_secs {ps ss ds : List RoleRow} :
    ∀ r ∈ merge3 ps ss ds,
      r.sec ∈ ps.map (·.sec) ∧ r.sec ∈ ss.map (·.sec) ∧ r.sec ∈ ds.map (·.sec) := by
  intro r hr
  simp only [merge3, List.mem_flatMap, List.mem_map, List.mem_filter,
    decide_eq_true_eq] at hr
  obtain ⟨p, hp, s, ⟨hsm, hse⟩, d, ⟨hdm, hde⟩, rfl⟩ := hr
  exact ⟨List.mem_map_of_mem _ hp, List.mem_map.mpr ⟨s, hsm, hse⟩,
    List.mem_map.mpr ⟨d, hdm, hde⟩⟩

theorem merge3_secs_sublist {ps ss ds : List RoleRow}
    (hs : (ss.map (·.sec)).Nodup) (hd : (ds.map (·.sec)).Nodup) :
    List.Sublist ((merge3 ps ss ds).map (·.sec)) (ps.map (·.sec)) := by
  induction ps with
  | nil => exact List.Sublist.refl _
  | cons p ps ih =>
    have step : merge3 (p :: ps) ss ds = mergeBlock ss ds p ++ merge3 ps ss ds := rfl
    rw [step, List.map_append]
    rcases length_le_one_cases (mergeBlock_length hs hd p) with h0 | ⟨r, h1⟩
    · rw [h0]
      simp only [List.map_nil, List.nil_append, List.map_cons]
      exact ih.cons _
    · rw [h1]
      simp only [List.map_cons, List.map_nil, List.singleton_append]
      have hr : r.sec = p.sec := mergeBlock_sec r (by rw [h1]; exact List.mem_singleton_self r)
      rw [hr]
      exact ih.cons₂ _

/-- Claim C6: inner-join law — every second of the merged table occurs in
all three inputs, and when the three inputs have unique seconds (the
RoleSeries invariant) the merged length is at most each input length,
hence at most their minimum. -/
theorem claim_C6_inner_join_law (ps ss ds : List RoleRow)
    (hp : (ps.map (·.sec)).Nodup) (hs : (ss.map (·.sec)).Nodup)
    (hd : (ds.map (·.sec)).Nodup) :
    (∀ r ∈ merge3 ps ss ds,
        r.sec ∈ ps.map (·.sec) ∧ r.sec ∈ ss.map (·.sec) ∧ r.sec ∈ ds.map (·.sec))
  ∧ (merge3 ps ss ds).length ≤ ps.length
  ∧ (merge3 ps ss ds).length ≤ ss.length
  ∧ (merge3 ps ss ds).length ≤ ds.length := by
  have hsub := @merge3_secs_sublist ps ss ds hs hd
  have hlen_map : (merge3 ps ss ds).length = ((merge3 ps ss ds).map (·.sec)).length :=
    (List.length_map _ _).symm
  have hnd : ((merge3 ps ss ds).map (·.sec)).Nodup := hsub.nodup hp
  refine ⟨merge3_mem_secs, ?_, ?_, ?_⟩
  · calc (merge3 ps ss ds).length
        = ((merge3 ps ss ds).map (·.sec)).length := hlen_map
      _ ≤ (ps.map (·.sec)).length := hsub.length_le
      _ = ps.length := List.length_map _ _
  · have hss : ((merge3 ps ss ds).map (·.sec)) ⊆ ss.map (·.sec) := by
      intro x hx
      obtain ⟨r, hr, he⟩ := List.mem_map.mp hx
      exact he ▸ (merge3_mem_secs r hr).2.1
    calc (merge3 ps ss ds).length
        = ((merge3 ps ss ds).map (·.sec)).length := hlen_map
      _ ≤ (ss.map (·.sec)).length := (hnd.subperm hss).length_le
      _ = ss.length := List.length_map _ _
  · have hds : ((merge3 ps ss ds).map (·.sec)) ⊆ ds.map (·.sec) := by
      intro x hx
      obtain ⟨r, hr, he⟩ := List.mem_map.mp hx
      exact he ▸ (merge3_mem_secs r hr).2.2
    calc (merge3 ps ss ds).length
        = ((merge3 ps ss ds).map (·.sec)).length := hlen_map
      _ ≤ (ds.map (·.sec)).length := (hnd.subperm hds).length_le
      _ = ds.length := List.length_map _ _

/-- Witness for C6 at three unique-second single-row tables. -/
theorem claim_C6_witness :
    (∀ r ∈ merge3 tblSec0 tblSec1 tblSec2,
        r.sec ∈ tblSec0.map (·.sec) ∧ r.sec ∈ tblSec1.map (·.sec)
          ∧ r.sec ∈ tblSec2.map (·.sec))
  ∧ (merge3 tblSec0 tblSec1 tblSec2).length ≤ tblSec0.length
  ∧ (merge3 tblSec0 tblSec1 tblSec2).length ≤ tblSec1.length
  ∧ (merge3 tblSec0 tblSec1 tblSec2).length ≤ tblSec2.length :=
  claim_C6_inner_join_law tblSec0 tblSec1 tblSec2 (by decide) (by decide) (by decide)

/-! ### Claim C9 — summary statistics -/

theorem foldl_max_le_init (xs : List ℚ) : ∀ a : ℚ, a ≤ xs.foldl max a := by
  induction xs with
  | nil => intro a; exact le_refl a
  | cons x xs ih => intro a; exact le_trans (le_max_left a x) (ih (max a x))

theorem foldl_max_le_mem (xs : List ℚ) : ∀ (a : ℚ), ∀ x ∈ xs, x ≤ xs.foldl max a := by
  induction xs with
  | nil => intro a x hx; simp at hx
  | cons y ys ih =>
    intro a x hx
    rcases List.mem_cons.mp hx with rfl | h
    · exact le_trans (le_max_right a x) (foldl_max_le_init ys (max a x))
    · exact ih (max a y) x h

theorem foldl_max_mem (xs : List ℚ) : ∀ a : ℚ, xs.foldl max a = a ∨ xs.foldl max a ∈ xs := by
  induction xs with
  | nil => intro a; exact Or.inl rfl
  | cons y ys ih =>
    intro a
    rcases ih (max a y) with h | h
    · rcases le_total a y with hle | hle
      · right
        rw [List.foldl_cons, h, max_eq_right hle]
        exact List.mem_cons_self _ _
      · left
        rw [List.foldl_cons, h, max_eq_left hle]
    · right
      exact List.mem_cons_of_mem _ h

theorem secMax_spec {rows : List MergedRow} (hne : rows ≠ []) :
    ∃ m, secMax rows = some m ∧ m ∈ rows.map (·.sec) ∧ ∀ x ∈ rows.map (·.sec), x ≤ m := by
  match rows with
  | [] => exact absurd rfl hne
  | r :: rs =>
    have heq : rs.foldl (fun a x => max a x.sec) r.sec
        = (rs.map (·.sec)).foldl max r.sec := (List.foldl_map _ _ _ _).symm
    refine ⟨_, rfl, ?_, ?_⟩
    · rw [heq, List.map_cons]
      rcases foldl_max_mem (rs.map (·.sec)) r.sec with h | h
      · rw [h]
        exact List.mem_cons_self _ _
      · exact List.mem_cons_of_mem _ h
    · intro x hx
      rw [heq]
      rcases List.mem_cons.mp hx with rfl | h
      · exact foldl_max_le_init _ _
      · exact foldl_max_le_mem _ _ _ h

theorem secMax_perm {rows rows' : List MergedRow} (h : rows.Perm rows') :
    secMax rows = secMax rows' := by
  by_cases hnil : rows = []
  · subst hnil
    rw [h.symm.eq_nil]
  · have hnil' : rows' ≠ [] := by
      intro he
      rw [he] at h
      exact hnil h.eq_nil
    obtain ⟨m, hm, hmm, hmb⟩ := secMax_spec hnil
    obtain ⟨m', hm', hmm', hmb'⟩ := secMax_spec hnil'
    have hmap := h.map (·.sec)
    have h1 : m ≤ m' := hmb' m (hmap.mem_iff.mp hmm)
    have h2 : m' ≤ m := hmb m' (hmap.mem_iff.mpr hmm')
    rw [hm, hm', le_antisymm h1 h2]

theorem pandasMean_perm {l l' : List (Option ℚ)} (h : l.Perm l') :
    pandasMean l = pandasMean l' := by
  have hfm := h.filterMap id
  unfold pandasMean
  rw [hfm.length_eq, hfm.sum_eq]

theorem makeSummary_perm {rows rows' : List MergedRow} (h : rows.Perm rows') :
    makeSummary rows' = makeSummary rows := by
  unfold makeSummary
  rw [secMax_perm h]
  cases secMax rows' with
  | none => rfl
  | some mx =>
    have e : ∀ f : MergedRow → Option ℚ,
        (pandasMean (rows'.map f)).map pyRound1 = (pandasMean (rows.map f)).map pyRound1 := by
      intro f
      rw [pandasMean_perm (h.map f)]
    simp only [Except.ok.injEq, Summary.mk.injEq, e]

theorem pandasMean_getD {l : List (Option ℚ)} (hne : l ≠ []) (h : ∀ x ∈ l, x.isSome) :
    pandasMean l = some (colMean (l.map (fun x => x.getD 0))) := by
  have hfm : l.filterMap id = l.map (fun x => x.getD 0) := by
    have := filterMap_eq_map_getD (f := fun x => (x : Option ℚ)) l h
    simpa using this
  have hlen : l.length ≠ 0 := by
    intro he
    exact hne (List.length_eq_zero.mp he)
  unfold pandasMean colMean
  rw [hfm, List.length_map, if_neg hlen]

theorem meanField_eq {rows : List MergedRow} (hne : rows ≠ []) (f : MergedRow → Option ℚ)
    (hsome : ∀ r ∈ rows, (f r).isSome) :
    (pandasMean (rows.map f)).map pyRound1
      = some (pyRound1 (colMean (rows.map fun r => (f r).getD 0))) := by
  have hne' : rows.map f ≠ [] := by
    intro he
    exact hne (List.map_eq_nil_iff.mp he)
  have hs : ∀ x ∈ rows.map f, x.isSome := by
    intro x hx
    obtain ⟨r, hr, he⟩ := List.mem_map.mp hx
    exact he ▸ hsome r hr
  rw [pandasMean_getD hne' hs]
  rw [List.map_map]
  rfl

theorem pyInt_natCast (n : ℕ) : pyInt (n : ℚ) = (n : ℤ) := by
  unfold pyInt
  rw [if_neg (not_lt.mpr (by positivity))]
  exact Int.floor_natCast n

/-- Claim C9: on a non-empty merged table with integer seconds and no
`NaN` cell, the summary succeeds; its total time is exactly the maximal
second present in the table; each of the twelve per-role metric summaries
is the arithmetic mean of its column rounded to one decimal; and the whole
summary is invariant under any permutation of the rows. -/
theorem claim_C9_summary_stats (rows : List MergedRow)
    (hne : rows ≠ [])
    (hsec : ∀ r ∈ rows, ∃ n : ℕ, r.sec = (n : ℚ))
    (hnum : ∀ r ∈ rows, r.pCpu.isSome ∧ r.pMem.isSome ∧ r.pRd.isSome ∧ r.pWr.isSome
      ∧ r.sCpu.isSome ∧ r.sMem.isSome ∧ r.sRd.isSome ∧ r.sWr.isSome
      ∧ r.dCpu.isSome ∧ r.dMem.isSome ∧ r.dRd.isSome ∧ r.dWr.isSome) :
    ∃ s, makeSummary rows = .ok s
      ∧ ((s.totalSeconds : ℚ) ∈ rows.map (·.sec)
          ∧ ∀ x ∈ rows.map (·.sec), x ≤ (s.totalSeconds : ℚ))
      ∧ s.pCpu = some (pyRound1 (colMean (rows.map fun r => r.pCpu.getD 0)))
      ∧ s.pMem = some (pyRound1 (colMean (rows.map fun r => r.pMem.getD 0)))
      ∧ s.pRd = some (pyRound1 (colMean (rows.map fun r => r.pRd.getD 0)))
      ∧ s.pWr = some (pyRound1 (colMean (rows.map fun r => r.pWr.getD 0)))
      ∧ s.sCpu = some (pyRound1 (colMean (rows.map fun r => r.sCpu.getD 0)))
      ∧ s.sMem = some (pyRound1 (colMean (rows.map fun r => r.sMem.getD 0)))
      ∧ s.sRd = some (pyRound1 (colMean (rows.map fun r => r.sRd.getD 0)))
      ∧ s.sWr = some (pyRound1 (colMean (rows.map fun r => r.sWr.getD 0)))
      ∧ s.dCpu = some (pyRound1 (colMean (rows.map fun r => r.dCpu.getD 0)))
      ∧ s.dMem = some (pyRound1 (colMean (rows.map fun r => r.dMem.getD 0)))
      ∧ s.dRd = some (pyRound1 (colMean (rows.map fun r => r.dRd.getD 0)))
      ∧ s.dWr = some (pyRound1 (colMean (rows.map fun r => r.dWr.getD 0)))
      ∧ (∀ rows', rows.Perm rows' → makeSummary rows' = makeSummary rows) := by
  obtain ⟨m, hm, hmm, hmb⟩ := secMax_spec hne
  have hint : ((pyInt m : ℤ) : ℚ) = m := by
    obtain ⟨r, hr, he⟩ := List.mem_map.mp hmm
    obtain ⟨n, hn⟩ := hsec r hr
    rw [← he, hn, pyInt_natCast]
    norm_cast
  refine ⟨⟨pyInt m,
      (pandasMean (rows.map (·.pCpu))).map pyRound1,
      (pandasMean (rows.map (·.pMem))).map pyRound1,
      (pandasMean (rows.map (·.pRd))).map pyRound1,
      (pandasMean (rows.map (·.pWr))).map pyRound1,
      (pandasMean (rows.map (·.sCpu))).map pyRound1,
      (pandasMean (rows.map (·.sMem))).map pyRound1,
      (pandasMean (rows.map (·.sRd))).map pyRound1,
      (pandasMean (rows.map (·.sWr))).map pyRound1,
      (pandasMean (rows.map (·.dCpu))).map pyRound1,
      (pandasMean (rows.map (·.dMem))).map pyRound1,
      (pandasMean (rows.map (·.dRd))).map pyRound1,
      (pandasMean (rows.map (·.dWr))).map pyRound1⟩,
    ?_, ?_, ?_, ?_, ?_, ?_, ?_, ?_, ?_, ?_, ?_, ?_, ?_, ?_, ?_⟩
  · unfold makeSummary
    rw [hm]
  · refine ⟨?_, ?_⟩
    · show ((pyInt m : ℤ) : ℚ) ∈ _
      rw [hint]
      exact hmm
    · intro x hx
      show x ≤ ((pyInt m : ℤ) : ℚ)
      rw [hint]
      exact hmb x hx
  · exact meanField_eq hne _ (fun r hr => (hnum r hr).1)
  · exact meanField_eq hne _ (fun r hr => (hnum r hr).2.1)
  · exact meanField_eq hne _ (fun r hr => (hnum r hr).2.2.1)
  · exact meanField_eq hne _ (fun r hr => (hnum r hr).2.2.2.1)
  · exact meanField_eq hne _ (fun r hr => (hnum r hr).2.2.2.2.1)
  · exact meanField_eq hne _ (fun r hr => (hnum r hr).2.2.2.2.2.1)
  · exact meanField_eq hne _ (fun r hr => (hnum r hr).2.2.2.2.2.2.1)
  · exact meanField_eq hne _ (fun r hr => (hnum r hr).2.2.2.2.2.2.2.1)
  · exact meanField_eq hne _ (fun r hr => (hnum r hr).2.2.2.2.2.2.2.2.1)
  · exact meanField_eq hne _ (fun r hr => (hnum r hr).2.2.2.2.2.2.2.2.2.1)
  · exact meanField_eq hne _ (fun r hr => (hnum r hr).2.2.2.2.2.2.2.2.2.2.1)
  · exact meanField_eq hne _ (fun r hr => (hnum r hr).2.2.2.2.2.2.2.2.2.2.2)
  · exact fun rows' hperm => makeSummary_perm hperm

/-- Witness for C9 at a concrete two-row merged table. -/
theorem claim_C9_witness :
    ∃ s, makeSummary rowsC9 = .ok s
      ∧ ((s.totalSeconds : ℚ) ∈ rowsC9.map (·.sec)
          ∧ ∀ x ∈ rowsC9.map (·.sec), x ≤ (s.totalSeconds : ℚ))
      ∧ s.pCpu = some (pyRound1 (colMean (rowsC9.map fun r => r.pCpu.getD 0)))
      ∧ s.pMem = some (pyRound1 (colMean (rowsC9.map fun r => r.pMem.getD 0)))
      ∧ s.pRd = some (pyRound1 (colMean (rowsC9.map fun r => r.pRd.getD 0)))
      ∧ s.pWr = some (pyRound1 (colMean (rowsC9.map fun r => r.pWr.getD 0)))
      ∧ s.sCpu = some (pyRound1 (colMean (rowsC9.map fun r => r.sCpu.getD 0)))
      ∧ s.sMem = some (pyRound1 (colMean (rowsC9.map fun r => r.sMem.getD 0)))
      ∧ s.sRd = some (pyRound1 (colMean (rowsC9.map fun r => r.sRd.getD 0)))
      ∧ s.sWr = some (pyRound1 (colMean (rowsC9.map fun r => r.sWr.getD 0)))
      ∧ s.dCpu = some (pyRound1 (colMean (rowsC9.map fun r => r.dCpu.getD 0)))
      ∧ s.dMem = some (pyRound1 (colMean (rowsC9.map fun r => r.dMem.getD 0)))
      ∧ s.dRd = some (pyRound1 (colMean (rowsC9.map fun r => r.dRd.getD 0)))
      ∧ s.dWr = some (pyRound1 (colMean (rowsC9.map fun r => r.dWr.getD 0)))
      ∧ (∀ rows', rowsC9.Perm rows' → makeSummary rows' = makeSummary rowsC9) :=
  claim_C9_summary_stats rowsC9 (by decide)
    (by
      intro r hr
      rcases List.mem_cons.mp hr with rfl | hr2
      · exact ⟨0, by norm_num⟩
      · rcases List.mem_singleton.mp hr2 with rfl
        exact ⟨1, by norm_num⟩)
    (by decide)

end GraphPidstat
